import Mathlib

/-!
Verification development for the guess-the-player repository.

The definitions below are shallow embeddings of the Python source:

* `scraper/data_preparation/create_sequence.py`
  (`is_youth_or_reserve_club`, `build_cleaned_sequence`,
   `categorize_by_difficulty`);
* `backend/app/services/in_memory_storage.py` (`InMemoryStorage`);
* `backend/app/services/session_service.py` (`SessionService.submit_guess`);
* `backend/app/services/game_service.py`
  (`sanitize_guess`, `GameService.check_guess`).

Python dictionaries are modelled as association lists, wall-clock time as a
`Nat` parameter, database access and the external fuzzy scorer as explicit
function parameters, and exceptions as `Except`.
-/

/-! ### String helpers (Python `in`, `lower`, `strip`, `endswith`) -/

/-- Does the first char list occur at the start of the second
(Python prefix test used by substring search)? -/
def charListStarts : List Char → List Char → Bool
  | [], _ => true
  | _ :: _, [] => false
  | a :: as, b :: bs => a == b && charListStarts as bs

/-- Does the needle occur as a contiguous run inside the haystack? -/
def charListHasSub (needle : List Char) : List Char → Bool
  | [] => needle.isEmpty
  | hay@(_ :: rest) => charListStarts needle hay || charListHasSub needle rest

/-- Python `needle in hay` on strings: contiguous substring containment. -/
def strContains (hay needle : String) : Bool :=
  charListHasSub needle.toList hay.toList

/-- Python `str.lower()`, character by character. -/
def strLower (s : String) : String :=
  String.mk (s.toList.map Char.toLower)

/-- Python `str.strip()`: drop whitespace from both ends. -/
def pyStrip (s : String) : String :=
  String.mk
    (((s.toList.dropWhile Char.isWhitespace).reverse.dropWhile
      Char.isWhitespace).reverse)

/-- Python `str.endswith(suffix)`. -/
def strEndsWith (s suffix : String) : Bool :=
  charListStarts suffix.toList.reverse s.toList.reverse

/-! ### create_sequence.py: data model -/

/-- One row of `transfer_details` as consumed by `build_cleaned_sequence`
(columns `to_club`, `to_club_image_url`, `season`, `fee`; the `fee` and
image columns are nullable, hence `Option`). -/
structure TransferRecord where
  to_club : String
  to_club_image_url : Option String
  season : String
  fee : Option String
deriving Repr, DecidableEq

/-- One element of the `cleaned` list built by `build_cleaned_sequence`
(keys `club`, `logo`, `season`, `fee`, `is_loan`). -/
structure CareerStint where
  club : String
  logo : Option String
  season : String
  fee : Option String
  is_loan : Bool
deriving Repr, DecidableEq

/-- `fee = (t.get('fee') or '').lower()` from `build_cleaned_sequence`. -/
def feeLower (t : TransferRecord) : String :=
  strLower (t.fee.getD "")

/-- `'loan transfer' in fee or (fee and 'loan' in fee and 'end of' not in fee)`. -/
def isLoanFee (fee : String) : Bool :=
  strContains fee "loan transfer" ||
    (!(fee == "") && strContains fee "loan" && !strContains fee "end of")

/-- `'end of loan' in fee`. -/
def isEndOfLoanFee (fee : String) : Bool :=
  strContains fee "end of loan"

/-- The `youth_keywords` list of `is_youth_or_reserve_club`, verbatim. -/
def youthKeywords : List String :=
  ["u16", "u17", "u18", "u19", "u20", "u21", "u22", "u23",
   "u15", "sub-15", "sub-17", "sub-19", "sub-20", "sub-21",
   "youth", "reserve", "reserves", "yth.", "yth", "you.",
   "b team", "b-team", "acad.", "academy", "ii",
   "ii team", "ii-team", "jgd.", "jong", "jrs.",
   "under 18", "under 19", "under 21", "under 23",
   "u-18", "u-19", "u-21", "u-23",
   "juvenil", "juvenile", "without club"]

/-- `is_youth_or_reserve_club(club_name)`: falsy input gives `False`; a
keyword substring match on the lowered, stripped name gives `True`; a
trailing " B"/" C"/" D" on the original name gives `True`; the Python
fall-through `None` is falsy, modelled as `false`. -/
def is_youth_or_reserve_club (club_name : String) : Bool :=
  if club_name == "" then false
  else
    let club_clean := pyStrip (strLower club_name)
    if youthKeywords.any (fun k => strContains club_clean k) then true
    else strEndsWith club_name " B" || strEndsWith club_name " C" ||
         strEndsWith club_name " D"

/-- Builds one `cleaned` entry from the record supplying club and logo,
with the given season, fee and loan flag (the dict literals appended by
`build_cleaned_sequence`). -/
def mkStint (t : TransferRecord) (season : String) (fee : Option String)
    (is_loan : Bool) : CareerStint :=
  ⟨t.to_club, t.to_club_image_url, season, fee, is_loan⟩

/-- The `end of loan` discard test: `transfers_list[i+1]` exists and its
lowered fee contains "loan" but not "end of". -/
def eolNextSkips (rest : List TransferRecord) : Bool :=
  match rest.head? with
  | some t2 => strContains (feeLower t2) "loan" &&
      !strContains (feeLower t2) "end of"
  | none => false

/-- The main `while i < len(transfers_list)` loop of
`build_cleaned_sequence`, producing the `cleaned` list.  The loop index is
replaced by the remaining suffix of the list; the extra `Nat` is fuel
(one unit per loop iteration, each of which consumes at least one record,
so `transfers_list.length` units always suffice — see `cleanFuel_congr`).
Branches, in source order: youth/reserve skip; `is_end_of_loan` with its
one-record raw lookahead; `is_loan` with its inner `j` scan past
`end of loan` records (`dropWhile`), merging on a same-club non-loan
return (advance to `j+1`) and otherwise emitting a loan stint (advance
one); plain emission. -/
def cleanFuel : Nat → List TransferRecord → List CareerStint
  | 0, _ => []
  | _ + 1, [] => []
  | fuel + 1, t :: rest =>
    if is_youth_or_reserve_club t.to_club then cleanFuel fuel rest
    else if isEndOfLoanFee (feeLower t) then
      if eolNextSkips rest then cleanFuel fuel rest
      else mkStint t t.season t.fee false :: cleanFuel fuel rest
    else if isLoanFee (feeLower t) then
      match rest.dropWhile (fun r => isEndOfLoanFee (feeLower r)) with
      | t2 :: rest2 =>
        if t2.to_club == t.to_club && !strContains (feeLower t2) "loan" then
          mkStint t t2.season t2.fee false :: cleanFuel fuel rest2
        else mkStint t t.season t.fee true :: cleanFuel fuel rest
      | [] => mkStint t t.season t.fee true :: cleanFuel fuel rest
    else mkStint t t.season t.fee false :: cleanFuel fuel rest

/-- The `cleaned` list of `build_cleaned_sequence` (main loop only). -/
def cleanPass (transfers_list : List TransferRecord) : List CareerStint :=
  cleanFuel transfers_list.length transfers_list

/-- The final `for idx, c in enumerate(cleaned)` pass: keep `c` when its
club differs from the club of the ORIGINAL previous element
(`cleaned[idx - 1]`), which is threaded here as `prev`. -/
def dedupFrom (prev : CareerStint) : List CareerStint → List CareerStint
  | [] => []
  | c :: rest =>
    if c.club == prev.club then dedupFrom c rest
    else c :: dedupFrom c rest

/-- `build_cleaned_sequence(transfers_list)`: main loop then the
adjacent-duplicate pass (index 0 is always kept). -/
def build_cleaned_sequence (transfers_list : List TransferRecord) :
    List CareerStint :=
  match cleanPass transfers_list with
  | [] => []
  | c :: rest => c :: dedupFrom c rest

/-! ### create_sequence.py: classifier -/

/-- One element of `sequences` as consumed by `categorize_by_difficulty`
(the fields it reads: `num_moves = len(cleaned)` and `sequence_string`). -/
structure SequenceRec where
  player_id : String
  player_name : String
  num_moves : Nat
  sequence_string : String
deriving Repr, DecidableEq

/-- The same record after `categorize_by_difficulty` has added
`num_players_with_seq` and `difficulty`. -/
structure ClassifiedRec where
  player_id : String
  player_name : String
  num_moves : Nat
  sequence_string : String
  num_players_with_seq : Nat
  difficulty : String
deriving Repr, DecidableEq

/-- The difficulty assignment of `categorize_by_difficulty`:
`num_moves <= 4` short, `elif num_moves <= 7` moderate, else long. -/
def difficultyFor (num_moves : Nat) : String :=
  if num_moves ≤ 4 then "short"
  else if num_moves ≤ 7 then "moderate"
  else "long"

/-- `categorize_by_difficulty(sequences)`: sets each record's
`num_players_with_seq` to the `Counter` frequency of its
`sequence_string` over the whole batch, and its `difficulty` from
`num_moves`. -/
def categorize_by_difficulty (sequences : List SequenceRec) :
    List ClassifiedRec :=
  sequences.map (fun s =>
    ⟨s.player_id, s.player_name, s.num_moves, s.sequence_string,
     sequences.countP (fun x => x.sequence_string == s.sequence_string),
     difficultyFor s.num_moves⟩)

/-! ### in_memory_storage.py -/

/-- Lookup in an association list (Python `dict` access / `dict.get`);
keys are unique, so first match is the entry. -/
def alistGet {α : Type} : List (String × α) → String → Option α
  | [], _ => none
  | p :: rest, k => if p.1 == k then some p.2 else alistGet rest k

/-- Python `key in dict`. -/
def alistHas {α : Type} (l : List (String × α)) (k : String) : Bool :=
  l.any (fun p => p.1 == k)

/-- Python `dict[key] = value`: replace the entry in place if the key is
present (keys are unique, so the first hit is the entry), else append at
the end, matching dict insertion-order semantics. -/
def alistSet {α : Type} : List (String × α) → String → α → List (String × α)
  | [], k, v => [(k, v)]
  | p :: rest, k, v =>
    if p.1 == k then (k, v) :: rest else p :: alistSet rest k v

/-- Python `dict.pop(key, None)`. -/
def alistRemove {α : Type} (l : List (String × α)) (k : String) :
    List (String × α) :=
  l.filter (fun p => !(p.1 == k))

/-- The two dictionaries of `InMemoryStorage`: `_storage` and `_expiry`
(expiry deadlines as absolute times; `time.time()` is modelled as a `Nat`
passed to each operation). -/
structure Storage (α : Type) where
  storage : List (String × α)
  expiry : List (String × Nat)
deriving Repr, DecidableEq

/-- `InMemoryStorage.set(key, value, ttl)`: stores the value and sets the
deadline `now + ttl`; always returns `True`. -/
def Storage.set {α : Type} (st : Storage α) (now : Nat) (k : String) (v : α)
    (ttl : Nat) : Bool × Storage α :=
  (true, ⟨alistSet st.storage k v, alistSet st.expiry k (now + ttl)⟩)

/-- `InMemoryStorage.delete(key)`: removes the key from both dicts and
reports whether it was present. -/
def Storage.delete {α : Type} (st : Storage α) (k : String) :
    Bool × Storage α :=
  (alistHas st.storage k, ⟨alistRemove st.storage k, alistRemove st.expiry k⟩)

/-- `InMemoryStorage.get(key)`: absent keys give `None`; an expired key
(`now > expiry.get(key, 0)`) is evicted as a side effect and gives `None`;
otherwise the stored value (a defensive copy in Python, identity here). -/
def Storage.get {α : Type} (st : Storage α) (now : Nat) (k : String) :
    Option α × Storage α :=
  match alistGet st.storage k with
  | none => (none, st)
  | some v =>
    if (alistGet st.expiry k).getD 0 < now then (none, (st.delete k).2)
    else (some v, st)

/-- `InMemoryStorage.exists(key)`: same present-and-unexpired check as
`get`, with the same eviction side effect. -/
def Storage.existsKey {α : Type} (st : Storage α) (now : Nat) (k : String) :
    Bool × Storage α :=
  if !alistHas st.storage k then (false, st)
  else if (alistGet st.expiry k).getD 0 < now then (false, (st.delete k).2)
  else (true, st)

/-- `InMemoryStorage.update(key, value)`: `False` if `exists` fails
(including the expired-eviction case); otherwise replaces `_storage[key]`
and leaves `_expiry` untouched. -/
def Storage.update {α : Type} (st : Storage α) (now : Nat) (k : String)
    (v : α) : Bool × Storage α :=
  let ex := st.existsKey now k
  if ex.1 then (true, ⟨alistSet ex.2.storage k v, ex.2.expiry⟩)
  else (false, ex.2)

/-! ### game_service.py: sanitize_guess and check_guess -/

/-- Python regex `\w` (ASCII fragment): letters, digits, underscore. -/
def isWordChar (c : Char) : Bool :=
  c.isAlphanum || c == '_'

/-- `re.sub(r'\s+', ' ', guess)`: collapse each whitespace run to one
space; the flag records whether the previous char was whitespace. -/
def collapseWsGo : Bool → List Char → List Char
  | _, [] => []
  | prevWs, c :: rest =>
    if c.isWhitespace then
      if prevWs then collapseWsGo true rest
      else ' ' :: collapseWsGo true rest
    else c :: collapseWsGo false rest

/-- The character class kept by `re.sub(r"[^\w\s'-]", '', guess)`:
word chars, whitespace, apostrophe, hyphen. -/
def keepGuessChar (c : Char) : Bool :=
  isWordChar c || c.isWhitespace || c == Char.ofNat 39 || c == '-'

/-- `sanitize_guess(guess)`: empty/falsy input gives `""`; otherwise strip,
collapse whitespace runs, drop characters outside the kept class. -/
def sanitize_guess (guess : String) : String :=
  if guess == "" then ""
  else
    let g1 := pyStrip guess
    let g2 := String.mk (collapseWsGo false g1.toList)
    String.mk (g2.toList.filter keepGuessChar)

/-- The error taxonomy raised by the services (HTTP 400 invalid argument,
404 not found, 400 "No active question in session"). -/
inductive SvcError
  | invalidArgument
  | notFound
  | invalidState
deriving Repr, DecidableEq

/-- One row of the join used by `check_guess` over `sequence_analysis` and
`players` (`player_id`, `player_name`, nullable `player_img_url`,
`sequence_string`). -/
structure PlayerRow where
  player_id : String
  player_name : String
  player_img_url : Option String
  sequence_string : String
deriving Repr, DecidableEq

/-- The `GuessResponse` model returned by `check_guess`
(`similarity_score` as a `Nat`). -/
structure GuessResult where
  correct : Bool
  actual_answer : String
  actual_answer_img_url : String
  similarity_score : Nat
  all_possible_answers : List String
  all_possible_answers_img_urls : List String
deriving Repr, DecidableEq

/-- `GameService.check_guess(player_id, guess)`.  The question store is the
row list `db`; `resolveImg` stands for `get_player_image_url`; `fuzzy`
stands for `fuzzy_match_player` (returns best match and score);
`threshold` is `settings.fuzzy_match_threshold`.  Sanitizes, finds the
target row by id, gathers all rows sharing its `sequence_string`, then
the exact case-insensitive comparison of `guess.strip().lower()` against
each answer name short-circuits with similarity 100 before any fuzzy
scoring; otherwise the fuzzy score decides against the threshold. -/
def check_guess (db : List PlayerRow)
    (resolveImg : String → Option String → String)
    (fuzzy : String → List String → String × Nat) (threshold : Nat)
    (player_id guess0 : String) : Except SvcError GuessResult :=
  let guess := sanitize_guess guess0
  if guess == "" then .error .invalidArgument
  else
    match db.find? (fun r => r.player_id == player_id) with
    | none => .error .notFound
    | some row =>
      let all_answers :=
        db.filter (fun r => r.sequence_string == row.sequence_string)
      let all_possible_names := all_answers.map (fun r => r.player_name)
      let all_imgs := all_answers.map
        (fun r => resolveImg player_id (some (r.player_img_url.getD "")))
      let correct_img := resolveImg player_id row.player_img_url
      let guess_clean := strLower (pyStrip guess)
      if all_possible_names.any (fun n => guess_clean == strLower n) then
        .ok ⟨true, row.player_name, correct_img, 100,
             all_possible_names, all_imgs⟩
      else
        let ms := fuzzy guess all_possible_names
        .ok ⟨decide (threshold ≤ ms.2), row.player_name, correct_img, ms.2,
             all_possible_names, all_imgs⟩

/-! ### session_service.py: submit_guess -/

/-- The session record stored by `SessionService`
(`current_question_player_id` with Python falsiness modelled as `""`). -/
structure SessionData where
  session_id : String
  difficulty : String
  top_n : Nat
  current_question_player_id : String
  score : Nat
  total_attempts : Nat
  correct_guesses : Nat
  created_at : String
  last_activity : String
deriving Repr, DecidableEq

/-- The dict returned by `SessionService.submit_guess`. -/
structure SubmitResult where
  correct : Bool
  actual_answer : String
  actual_answer_img_url : String
  similarity_score : Nat
  all_possible_answers : List String
  all_possible_answers_img_urls : List String
  session_score : Nat
  total_attempts : Nat
deriving Repr, DecidableEq

/-- The storage key `f"session:{session_id}"`. -/
def sessionKey (session_id : String) : String :=
  "session:" ++ session_id

/-- `SessionService.submit_guess(session_id, guess)`.  `check` stands for
`GameService.check_guess` already applied to its store and configuration;
`now` is the storage clock, `nowIso` the `datetime.now().isoformat()`
timestamp.  Re-fetches the session (404 when absent/expired), guards a
falsy `current_question_player_id`, evaluates the guess against that
stored id, increments `total_attempts` always and `score` and
`correct_guesses` only when correct, writes the mutated record back via
`storage.update`, and returns the evaluation plus updated counters. -/
def submit_guess (check : String → String → Except SvcError GuessResult)
    (now : Nat) (nowIso : String) (st : Storage SessionData)
    (session_id guess : String) :
    Except SvcError (SubmitResult × Storage SessionData) :=
  match st.get now (sessionKey session_id) with
  | (none, _) => .error .notFound
  | (some sd, st1) =>
    if sd.current_question_player_id == "" then .error .invalidState
    else
      match check sd.current_question_player_id guess with
      | .error e => .error e
      | .ok r =>
        let sd1 := { sd with
          total_attempts := sd.total_attempts + 1,
          last_activity := nowIso }
        let sd2 := if r.correct then
            { sd1 with
              score := sd1.score + 1,
              correct_guesses := sd1.correct_guesses + 1 }
          else sd1
        let st2 := (st1.update now (sessionKey session_id) sd2).2
        .ok (⟨r.correct, r.actual_answer, r.actual_answer_img_url,
              r.similarity_score, r.all_possible_answers,
              r.all_possible_answers_img_urls,
              sd2.score, sd2.total_attempts⟩, st2)

/-- Re-presents an emitted stint as a one-record transfer to that stint's
club with fee descriptor `d` (the feedback construction of the spec's
idempotence property, 8 "Cleaner idempotence"). -/
def reinject (d : String) (s : CareerStint) : TransferRecord :=
  ⟨s.club, s.logo, s.season, some d⟩

/-! ### Association-list lemmas -/

theorem alistGet_set_self {α : Type} (l : List (String × α)) (k : String)
    (v : α) : alistGet (alistSet l k v) k = some v := by
  induction l with
  | nil => simp [alistSet, alistGet]
  | cons p rest ih =>
    by_cases h : p.1 = k
    · simp [alistSet, alistGet, h]
    · simp [alistSet, alistGet, h, ih]

theorem alistGet_set_ne {α : Type} (l : List (String × α)) (k k2 : String)
    (v : α) (h : k2 ≠ k) :
    alistGet (alistSet l k v) k2 = alistGet l k2 := by
  induction l with
  | nil => simp [alistSet, alistGet, Ne.symm h]
  | cons p rest ih =>
    by_cases hp : p.1 = k
    · simp [alistSet, alistGet, hp, Ne.symm h]
    · simp [alistSet, alistGet, hp, ih]

theorem alistHas_of_get {α : Type} (l : List (String × α)) (k : String)
    (v : α) (h : alistGet l k = some v) : alistHas l k = true := by
  induction l with
  | nil => simp [alistGet] at h
  | cons p rest ih =>
    by_cases hp : p.1 = k
    · simp [alistHas, hp]
    · simp only [alistGet, beq_iff_eq, hp, if_false] at h
      have hstep : alistHas (p :: rest) k = ((p.1 == k) || alistHas rest k) :=
        rfl
      rw [hstep, ih h]
      simp

/-! ### C10: TTL-preserving update -/

/-- C10: after `set(key, v1, ttl=T)` at time `t0`, an `update(key, v2)` at
any time `t1` at which the key is not yet expired succeeds, replaces the
stored value by `v2`, leaves the key's expiry deadline unchanged at the
original `t0 + T`, and leaves every other key's stored value and deadline
untouched. -/
theorem update_preserves_ttl {α : Type} (st : Storage α) (k : String)
    (v1 v2 : α) (T t0 t1 : Nat) (hexp : ¬ t0 + T < t1) :
    (((st.set t0 k v1 T).2.update t1 k v2).1 = true) ∧
    alistGet ((st.set t0 k v1 T).2.update t1 k v2).2.storage k = some v2 ∧
    alistGet ((st.set t0 k v1 T).2.update t1 k v2).2.expiry k
      = some (t0 + T) ∧
    ∀ k2, k2 ≠ k →
      alistGet ((st.set t0 k v1 T).2.update t1 k v2).2.storage k2
        = alistGet (st.set t0 k v1 T).2.storage k2 ∧
      alistGet ((st.set t0 k v1 T).2.update t1 k v2).2.expiry k2
        = alistGet (st.set t0 k v1 T).2.expiry k2 := by
  have hstor : alistGet (st.set t0 k v1 T).2.storage k = some v1 :=
    alistGet_set_self _ _ _
  have hhas : alistHas (st.set t0 k v1 T).2.storage k = true :=
    alistHas_of_get _ _ _ hstor
  have hexpget : alistGet (st.set t0 k v1 T).2.expiry k = some (t0 + T) :=
    alistGet_set_self _ _ _
  have hex : (st.set t0 k v1 T).2.existsKey t1 k = (true, (st.set t0 k v1 T).2) := by
    simp [Storage.existsKey, hhas, hexpget, hexp]
  have hupd : (st.set t0 k v1 T).2.update t1 k v2 =
      (true, ⟨alistSet (st.set t0 k v1 T).2.storage k v2,
              (st.set t0 k v1 T).2.expiry⟩) := by
    simp [Storage.update, hex]
  refine ⟨by rw [hupd], ?_, ?_, ?_⟩
  · rw [hupd]; exact alistGet_set_self _ _ _
  · rw [hupd]; exact hexpget
  · intro k2 hk2
    rw [hupd]
    exact ⟨alistGet_set_ne _ _ _ _ hk2, rfl⟩

/-- Witness for C10 at a concrete store: the deadline after the update is
still the original `0 + 10`. -/
theorem update_preserves_ttl_witness :
    alistGet (((⟨[("other", 7)], [("other", 50)]⟩ : Storage Nat).set 0
      "session:s1" 1 10).2.update 5 "session:s1" 2).2.expiry "session:s1"
      = some (0 + 10) :=
  (update_preserves_ttl ⟨[("other", 7)], [("other", 50)]⟩ "session:s1"
    1 2 10 0 5 (by decide)).2.2.1

/-! ### C6/C7: classifier -/

theorem difficultyFor_short (n : Nat) : difficultyFor n = "short" ↔ n ≤ 4 := by
  unfold difficultyFor
  split_ifs with h1 h2
  · simp [h1]
  · constructor
    · intro h; exact absurd h (by decide)
    · intro h; omega
  · constructor
    · intro h; exact absurd h (by decide)
    · intro h; omega

theorem difficultyFor_moderate (n : Nat) :
    difficultyFor n = "moderate" ↔ 5 ≤ n ∧ n ≤ 7 := by
  unfold difficultyFor
  split_ifs with h1 h2
  · constructor
    · intro h; exact absurd h (by decide)
    · intro h; omega
  · constructor
    · intro _; omega
    · intro _; rfl
  · constructor
    · intro h; exact absurd h (by decide)
    · intro h; omega

theorem difficultyFor_long (n : Nat) : difficultyFor n = "long" ↔ 8 ≤ n := by
  unfold difficultyFor
  split_ifs with h1 h2
  · constructor
    · intro h; exact absurd h (by decide)
    · intro h; omega
  · constructor
    · intro h; exact absurd h (by decide)
    · intro h; omega
  · constructor
    · intro _; omega
    · intro _; rfl

/-- C6: every record produced by `categorize_by_difficulty` carries
difficulty short iff its stint count is at most 4, moderate iff it is
between 5 and 7, and long iff it is at least 8. -/
theorem difficulty_boundaries (sequences : List SequenceRec)
    (r : ClassifiedRec) (hr : r ∈ categorize_by_difficulty sequences) :
    (r.difficulty = "short" ↔ r.num_moves ≤ 4) ∧
    (r.difficulty = "moderate" ↔ 5 ≤ r.num_moves ∧ r.num_moves ≤ 7) ∧
    (r.difficulty = "long" ↔ 8 ≤ r.num_moves) := by
  obtain ⟨s, _, rfl⟩ := List.mem_map.mp hr
  exact ⟨difficultyFor_short s.num_moves,
         difficultyFor_moderate s.num_moves,
         difficultyFor_long s.num_moves⟩

/-- Witness for C6 on a one-record batch with 7 stints: moderate. -/
theorem difficulty_boundaries_witness :
    ((⟨"p1", "Alice", 7, "A → B", 1, "moderate"⟩ : ClassifiedRec).difficulty
        = "moderate"
      ↔ 5 ≤ (⟨"p1", "Alice", 7, "A → B", 1, "moderate"⟩ :
          ClassifiedRec).num_moves ∧
        (⟨"p1", "Alice", 7, "A → B", 1, "moderate"⟩ :
          ClassifiedRec).num_moves ≤ 7) :=
  (difficulty_boundaries [⟨"p1", "Alice", 7, "A → B"⟩] _ (by decide)).2.1

/-- C7: every record produced by `categorize_by_difficulty` has
`num_players_with_seq` equal to the number of records in the whole input
batch whose `sequence_string` is identical to its own, and any two output
records with identical `sequence_string` get the same count. -/
theorem shared_by_count_population (sequences : List SequenceRec)
    (r : ClassifiedRec) (hr : r ∈ categorize_by_difficulty sequences) :
    r.num_players_with_seq =
      sequences.countP (fun x => x.sequence_string == r.sequence_string) ∧
    ∀ r2 ∈ categorize_by_difficulty sequences,
      r2.sequence_string = r.sequence_string →
      r2.num_players_with_seq = r.num_players_with_seq := by
  obtain ⟨s, _, rfl⟩ := List.mem_map.mp hr
  refine ⟨rfl, ?_⟩
  intro r2 hr2 hseq
  obtain ⟨s2, _, rfl⟩ := List.mem_map.mp hr2
  dsimp only at hseq ⊢
  rw [hseq]

/-- Witness for C7 on a concrete two-record batch sharing one sequence. -/
theorem shared_by_count_population_witness :
    (⟨"p1", "Alice", 3, "A → B", 2, "short"⟩ :
        ClassifiedRec).num_players_with_seq =
      List.countP
        (fun x : SequenceRec => x.sequence_string ==
          (⟨"p1", "Alice", 3, "A → B", 2, "short"⟩ :
            ClassifiedRec).sequence_string)
        [⟨"p1", "Alice", 3, "A → B"⟩, ⟨"p2", "Bob", 3, "A → B"⟩] :=
  (shared_by_count_population
    [⟨"p1", "Alice", 3, "A → B"⟩, ⟨"p2", "Bob", 3, "A → B"⟩] _
    (by decide)).1

/-! ### C2: no adjacent duplicate clubs -/

theorem dedupFrom_chain_head (l : List CareerStint) :
    ∀ prev : CareerStint,
      List.Chain' (fun a b => a.club ≠ b.club) (dedupFrom prev l) ∧
      ∀ s, (dedupFrom prev l).head? = some s → s.club ≠ prev.club := by
  induction l with
  | nil =>
    intro prev
    refine ⟨by simp [dedupFrom], ?_⟩
    intro s hs
    simp [dedupFrom] at hs
  | cons c rest ih =>
    intro prev
    by_cases h : c.club = prev.club
    · have hb : (c.club == prev.club) = true := beq_iff_eq.mpr h
      have hstep : dedupFrom prev (c :: rest) = dedupFrom c rest := by
        simp [dedupFrom, hb]
      rw [hstep]
      refine ⟨(ih c).1, ?_⟩
      intro s hs
      rw [← h]
      exact (ih c).2 s hs
    · have hb : (c.club == prev.club) = false := by
        simp [beq_iff_eq, h]
      have hstep : dedupFrom prev (c :: rest) = c :: dedupFrom c rest := by
        simp [dedupFrom, hb]
      rw [hstep]
      constructor
      · rw [List.chain'_cons']
        refine ⟨?_, (ih c).1⟩
        intro b hb2
        exact Ne.symm ((ih c).2 b (Option.mem_def.mp hb2))
      · intro s hs
        simp only [List.head?_cons, Option.some.injEq] at hs
        rw [← hs]
        exact h

theorem build_cleaned_chain (transfers_list : List TransferRecord) :
    List.Chain' (fun a b => a.club ≠ b.club)
      (build_cleaned_sequence transfers_list) := by
  unfold build_cleaned_sequence
  cases hc : cleanPass transfers_list with
  | nil => simp
  | cons c rest =>
    rw [List.chain'_cons']
    refine ⟨?_, (dedupFrom_chain_head rest c).1⟩
    intro b hb
    exact Ne.symm ((dedupFrom_chain_head rest c).2 b (Option.mem_def.mp hb))

/-- C2: for every input transfer list, the stint list produced by
`build_cleaned_sequence` contains no two consecutive stints with the same
club name. -/
theorem no_adjacent_duplicate_clubs (transfers_list : List TransferRecord) :
    List.Chain' (fun a b => a.club ≠ b.club)
      (build_cleaned_sequence transfers_list) :=
  build_cleaned_chain transfers_list

/-! ### Storage read/write lemmas for the session service -/

theorem storage_get_some {α : Type} (st : Storage α) (now : Nat) (k : String)
    (v : α) (h : (st.get now k).1 = some v) :
    alistGet st.storage k = some v ∧
    ¬ ((alistGet st.expiry k).getD 0 < now) ∧
    st.get now k = (some v, st) := by
  unfold Storage.get at h ⊢
  cases hg : alistGet st.storage k with
  | none => simp [hg] at h
  | some w =>
    rw [hg] at h
    by_cases hexp : (alistGet st.expiry k).getD 0 < now
    · simp [hexp] at h
    · simp [hexp] at h
      subst h
      simp [hexp]

theorem storage_update_of_get {α : Type} (st : Storage α) (now : Nat)
    (k : String) (v w : α) (hget : (st.get now k).1 = some w) :
    st.update now k v = (true, ⟨alistSet st.storage k v, st.expiry⟩) := by
  obtain ⟨hg, hexp, -⟩ := storage_get_some st now k w hget
  have hhas := alistHas_of_get _ _ _ hg
  unfold Storage.update Storage.existsKey
  simp [hhas, hexp]

/-! ### C1/C9: submit_guess -/

theorem submit_guess_eq_ok
    (check : String → String → Except SvcError GuessResult)
    (now : Nat) (nowIso : String) (st : Storage SessionData)
    (session_id guess : String) (sd : SessionData) (r : GuessResult)
    (hget : st.get now (sessionKey session_id) = (some sd, st))
    (hpid : (sd.current_question_player_id == "") = false)
    (hchk : check sd.current_question_player_id guess = .ok r) :
    submit_guess check now nowIso st session_id guess =
      .ok (⟨r.correct, r.actual_answer, r.actual_answer_img_url,
            r.similarity_score, r.all_possible_answers,
            r.all_possible_answers_img_urls,
            (if r.correct then sd.score + 1 else sd.score),
            sd.total_attempts + 1⟩,
           (st.update now (sessionKey session_id)
             (if r.correct then
                { sd with total_attempts := sd.total_attempts + 1,
                          last_activity := nowIso,
                          score := sd.score + 1,
                          correct_guesses := sd.correct_guesses + 1 }
              else
                { sd with total_attempts := sd.total_attempts + 1,
                          last_activity := nowIso })).2) := by
  unfold submit_guess
  rw [hget]
  simp only [hpid, hchk]
  cases hc : r.correct
  · simp [hc]
  · simp [hc]

/-- C1: `submit_guess` evaluates the guess by applying the evaluator
`check` to the session's own stored `current_question_player_id` (there
is no caller-supplied player id in its interface): whatever that single
evaluation returns is what `submit_guess` reports — an evaluator error
propagates unchanged, and an evaluator result's correctness, similarity
and answer set are returned unchanged, so the evaluation outcome is a
function only of the stored current player id and the guess text. -/
theorem submit_guess_anti_cheat
    (check : String → String → Except SvcError GuessResult)
    (now : Nat) (nowIso : String) (st : Storage SessionData)
    (session_id guess : String) (sd : SessionData)
    (hget : (st.get now (sessionKey session_id)).1 = some sd)
    (hpid : sd.current_question_player_id ≠ "") :
    (∀ e, check sd.current_question_player_id guess = .error e →
       submit_guess check now nowIso st session_id guess = .error e) ∧
    (∀ r, check sd.current_question_player_id guess = .ok r →
       ∃ out st2,
         submit_guess check now nowIso st session_id guess = .ok (out, st2) ∧
         out.correct = r.correct ∧
         out.similarity_score = r.similarity_score ∧
         out.actual_answer = r.actual_answer ∧
         out.all_possible_answers = r.all_possible_answers) := by
  have hget2 : st.get now (sessionKey session_id) = (some sd, st) :=
    (storage_get_some st now (sessionKey session_id) sd hget).2.2
  have hpid2 : (sd.current_question_player_id == "") = false := by
    simp [beq_iff_eq, hpid]
  constructor
  · intro e he
    unfold submit_guess
    rw [hget2]
    simp [hpid2, he]
  · intro r hr
    exact ⟨_, _,
      submit_guess_eq_ok check now nowIso st session_id guess sd r
        hget2 hpid2 hr, rfl, rfl, rfl, rfl⟩

/-- Witness for C1: a concrete session whose stored current question is
"p1"; the constant evaluator's verdict is passed through. -/
theorem submit_guess_anti_cheat_witness :
    ∃ out st2,
      submit_guess
        (fun _ _ => Except.ok ⟨true, "Alice", "img", 42, ["Alice"], ["img"]⟩)
        0 "t1"
        ⟨[("session:s1", ⟨"s1", "short", 200, "p1", 0, 0, 0, "t0", "t0"⟩)],
         [("session:s1", 100)]⟩
        "s1" "alice" = .ok (out, st2) ∧
      out.correct = true ∧ out.similarity_score = 42 ∧
      out.actual_answer = "Alice" ∧ out.all_possible_answers = ["Alice"] :=
  (submit_guess_anti_cheat
    (fun _ _ => Except.ok ⟨true, "Alice", "img", 42, ["Alice"], ["img"]⟩)
    0 "t1"
    ⟨[("session:s1", ⟨"s1", "short", 200, "p1", 0, 0, 0, "t0", "t0"⟩)],
     [("session:s1", 100)]⟩
    "s1" "alice" ⟨"s1", "short", 200, "p1", 0, 0, 0, "t0", "t0"⟩
    (by decide) (by decide)).2
    ⟨true, "Alice", "img", 42, ["Alice"], ["img"]⟩ rfl

/-- C9: when `submit_guess` succeeds, the session record written back to
the store has `total_attempts` incremented by exactly one, and `score`
and `correct_guesses` incremented by exactly one when the evaluation was
correct and unchanged otherwise; the returned counters report the
written-back record. -/
theorem submit_guess_increments
    (check : String → String → Except SvcError GuessResult)
    (now : Nat) (nowIso : String) (st : Storage SessionData)
    (session_id guess : String) (sd : SessionData) (r : GuessResult)
    (hget : (st.get now (sessionKey session_id)).1 = some sd)
    (hpid : sd.current_question_player_id ≠ "")
    (hchk : check sd.current_question_player_id guess = .ok r) :
    ∃ out st2 sd2,
      submit_guess check now nowIso st session_id guess = .ok (out, st2) ∧
      alistGet st2.storage (sessionKey session_id) = some sd2 ∧
      sd2.total_attempts = sd.total_attempts + 1 ∧
      sd2.score = (if r.correct then sd.score + 1 else sd.score) ∧
      sd2.correct_guesses =
        (if r.correct then sd.correct_guesses + 1 else sd.correct_guesses) ∧
      out.session_score = sd2.score ∧
      out.total_attempts = sd2.total_attempts := by
  have hget2 : st.get now (sessionKey session_id) = (some sd, st) :=
    (storage_get_some st now (sessionKey session_id) sd hget).2.2
  have hpid2 : (sd.current_question_player_id == "") = false := by
    simp [beq_iff_eq, hpid]
  have heq := submit_guess_eq_ok check now nowIso st session_id guess sd r
    hget2 hpid2 hchk
  have hupd := storage_update_of_get st now (sessionKey session_id)
    (if r.correct then
       { sd with total_attempts := sd.total_attempts + 1,
                 last_activity := nowIso,
                 score := sd.score + 1,
                 correct_guesses := sd.correct_guesses + 1 }
     else
       { sd with total_attempts := sd.total_attempts + 1,
                 last_activity := nowIso }) sd hget
  rw [hupd] at heq
  refine ⟨_, _, _, heq, alistGet_set_self _ _ _, ?_, ?_, ?_, ?_, ?_⟩
  · cases hc : r.correct <;> simp [hc]
  · cases hc : r.correct <;> simp [hc]
  · cases hc : r.correct <;> simp [hc]
  · cases hc : r.correct <;> simp [hc]
  · cases hc : r.correct <;> simp [hc]

/-- Witness for C9: a correct concrete guess adds one to all three
counters of the stored record. -/
theorem submit_guess_increments_witness :
    ∃ out st2 sd2,
      submit_guess
        (fun _ _ => Except.ok ⟨true, "Alice", "img", 100, ["Alice"], ["img"]⟩)
        0 "t1"
        ⟨[("session:s2", ⟨"s2", "long", 50, "p9", 3, 5, 3, "t0", "t0"⟩)],
         [("session:s2", 100)]⟩
        "s2" "alice" = .ok (out, st2) ∧
      alistGet st2.storage (sessionKey "s2") = some sd2 ∧
      sd2.total_attempts = 5 + 1 ∧
      sd2.score = (if (true : Bool) then 3 + 1 else 3) ∧
      sd2.correct_guesses = (if (true : Bool) then 3 + 1 else 3) ∧
      out.session_score = sd2.score ∧
      out.total_attempts = sd2.total_attempts :=
  submit_guess_increments
    (fun _ _ => Except.ok ⟨true, "Alice", "img", 100, ["Alice"], ["img"]⟩)
    0 "t1"
    ⟨[("session:s2", ⟨"s2", "long", 50, "p9", 3, 5, 3, "t0", "t0"⟩)],
     [("session:s2", 100)]⟩
    "s2" "alice" ⟨"s2", "long", 50, "p9", 3, 5, 3, "t0", "t0"⟩
    ⟨true, "Alice", "img", 100, ["Alice"], ["img"]⟩
    (by decide) (by decide) rfl

/-! ### C8: exact-match short-circuit in check_guess -/

/-- C8: whenever the sanitized guess, stripped and lowered, coincides with
the lowered full name of some acceptable answer (a row sharing the target
row's `sequence_string`), `check_guess` returns `correct = true` with
similarity exactly 100 — and it does so for EVERY fuzzy scorer, i.e. the
fuzzy matcher is bypassed even when its score would differ. -/
theorem check_guess_exact (db : List PlayerRow)
    (resolveImg : String → Option String → String) (threshold : Nat)
    (player_id guess0 : String) (row : PlayerRow)
    (hfind : db.find? (fun r => r.player_id == player_id) = some row)
    (hg : sanitize_guess guess0 ≠ "")
    (hex : ((db.filter
        (fun r => r.sequence_string == row.sequence_string)).map
        (fun r => r.player_name)).any
        (fun n => strLower (pyStrip (sanitize_guess guess0)) == strLower n)
        = true) :
    ∀ fuzzy, check_guess db resolveImg fuzzy threshold player_id guess0 =
      .ok ⟨true, row.player_name,
           resolveImg player_id row.player_img_url, 100,
           (db.filter
             (fun r => r.sequence_string == row.sequence_string)).map
             (fun r => r.player_name),
           (db.filter
             (fun r => r.sequence_string == row.sequence_string)).map
             (fun r => resolveImg player_id
               (some (r.player_img_url.getD "")))⟩ := by
  intro fuzzy
  have hg2 : (sanitize_guess guess0 == "") = false := by
    simp [beq_iff_eq, hg]
  unfold check_guess
  simp only [hg2, Bool.false_eq_true, if_false, hfind, hex, if_true]

/-- Witness for C8: the guess "BOB" exact-matches the second acceptable
answer even though the adversarial fuzzy scorer reports score 0. -/
theorem check_guess_exact_witness :
    check_guess [⟨"p1", "Alice", some "u1", "S"⟩, ⟨"p2", "Bob", none, "S"⟩]
      (fun _ _ => "I") (fun _ _ => ("", 0)) 85 "p1" "BOB"
    = .ok ⟨true, "Alice", "I", 100, ["Alice", "Bob"], ["I", "I"]⟩ :=
  check_guess_exact
    [⟨"p1", "Alice", some "u1", "S"⟩, ⟨"p2", "Bob", none, "S"⟩]
    (fun _ _ => "I") 85 "p1" "BOB" ⟨"p1", "Alice", some "u1", "S"⟩
    (by decide) (by decide) (by decide) (fun _ _ => ("", 0))

/-! ### Fuel lemmas for the cleaner loop -/

theorem cleanFuel_nil (fuel : Nat) : cleanFuel fuel [] = [] := by
  cases fuel <;> rfl

theorem cleanFuel_congr :
    ∀ (f1 : Nat) (ts : List TransferRecord) (f2 : Nat),
      ts.length ≤ f1 → ts.length ≤ f2 → cleanFuel f1 ts = cleanFuel f2 ts := by
  intro f1
  induction f1 with
  | zero =>
    intro ts f2 h1 _
    have hts : ts = [] := List.length_eq_zero.mp (Nat.le_zero.mp h1)
    subst hts
    rw [cleanFuel_nil, cleanFuel_nil]
  | succ n ih =>
    intro ts f2 h1 h2
    cases ts with
    | nil => rw [cleanFuel_nil, cleanFuel_nil]
    | cons t rest =>
      cases f2 with
      | zero => simp at h2
      | succ m =>
        have hr1 : rest.length ≤ n := by
          simp only [List.length_cons] at h1; omega
        have hr2 : rest.length ≤ m := by
          simp only [List.length_cons] at h2; omega
        simp only [cleanFuel]
        by_cases hy : is_youth_or_reserve_club t.to_club
        · simp [hy, ih rest m hr1 hr2]
        · by_cases he : isEndOfLoanFee (feeLower t)
          · by_cases hs : eolNextSkips rest
            · simp [hy, he, hs, ih rest m hr1 hr2]
            · simp [hy, he, hs, ih rest m hr1 hr2]
          · by_cases hl : isLoanFee (feeLower t)
            · cases hd :
                rest.dropWhile (fun r => isEndOfLoanFee (feeLower r)) with
              | nil => simp [hy, he, hl, hd, ih rest m hr1 hr2]
              | cons t2 rest2 =>
                have hlen : rest2.length ≤ rest.length := by
                  have hle := (List.dropWhile_suffix
                    (l := rest) (fun r => isEndOfLoanFee (feeLower r))).length_le
                  rw [hd] at hle
                  simp only [List.length_cons] at hle
                  omega
                by_cases hm : (t2.to_club == t.to_club &&
                    !strContains (feeLower t2) "loan")
                · simp [hy, he, hl, hd, hm,
                    ih rest2 m (le_trans hlen hr1) (le_trans hlen hr2)]
                · simp [hy, he, hl, hd, hm, ih rest m hr1 hr2]
            · simp [hy, he, hl, ih rest m hr1 hr2]

theorem cleanPass_loan_merge (t : TransferRecord)
    (rest : List TransferRecord) (t2 : TransferRecord)
    (rest2 : List TransferRecord)
    (hy : is_youth_or_reserve_club t.to_club = false)
    (he : isEndOfLoanFee (feeLower t) = false)
    (hl : isLoanFee (feeLower t) = true)
    (hd : rest.dropWhile (fun r => isEndOfLoanFee (feeLower r)) = t2 :: rest2)
    (hm : (t2.to_club == t.to_club && !strContains (feeLower t2) "loan")
        = true) :
    cleanPass (t :: rest) =
      mkStint t t2.season t2.fee false :: cleanPass rest2 := by
  have hlen : rest2.length ≤ rest.length := by
    have hle := (List.dropWhile_suffix
      (l := rest) (fun r => isEndOfLoanFee (feeLower r))).length_le
    rw [hd] at hle
    simp only [List.length_cons] at hle
    omega
  unfold cleanPass
  simp only [List.length_cons, cleanFuel, hy, he, hl, hd, hm]
  simp only [Bool.false_eq_true, if_false, if_true]
  exact congrArg _ (cleanFuel_congr rest.length rest2 rest2.length hlen le_rfl)

theorem cleanPass_loan_noMerge (t : TransferRecord)
    (rest : List TransferRecord)
    (hy : is_youth_or_reserve_club t.to_club = false)
    (he : isEndOfLoanFee (feeLower t) = false)
    (hl : isLoanFee (feeLower t) = true)
    (hnm : ∀ t2 rest2,
      rest.dropWhile (fun r => isEndOfLoanFee (feeLower r)) = t2 :: rest2 →
      (t2.to_club == t.to_club && !strContains (feeLower t2) "loan")
        = false) :
    cleanPass (t :: rest) = mkStint t t.season t.fee true :: cleanPass rest := by
  unfold cleanPass
  simp only [List.length_cons, cleanFuel, hy, he, hl]
  cases hd : rest.dropWhile (fun r => isEndOfLoanFee (feeLower r)) with
  | nil => simp
  | cons t2 rest2 => simp [hnm t2 rest2 hd]

/-! ### C3: the loan scan-and-merge step -/

/-- C3: when the main loop reaches a non-youth `loan` record, it scans
forward past the intervening `end of loan` records; if the first record
past them returns to the same club with a fee not containing "loan", the
two merge into a single non-loan stint (club and logo from the loan
record, season and fee from the returning record) and processing resumes
past both; otherwise — including when the scan exhausts the list — the
loan record is emitted as a loan stint and processing advances one
record.  In particular `[loan→A, end_of_loan→Parent, permanent→A]`
collapses to a single non-loan stint at A. -/
theorem loan_scan_merge_step (t : TransferRecord)
    (rest : List TransferRecord)
    (hy : is_youth_or_reserve_club t.to_club = false)
    (hl : isLoanFee (feeLower t) = true)
    (he : isEndOfLoanFee (feeLower t) = false) :
    (∀ t2 rest2,
      rest.dropWhile (fun r => isEndOfLoanFee (feeLower r)) = t2 :: rest2 →
      (t2.to_club = t.to_club ∧ strContains (feeLower t2) "loan" = false →
         cleanPass (t :: rest) =
           mkStint t t2.season t2.fee false :: cleanPass rest2) ∧
      (¬ (t2.to_club = t.to_club ∧ strContains (feeLower t2) "loan" = false) →
         cleanPass (t :: rest) =
           mkStint t t.season t.fee true :: cleanPass rest)) ∧
    (rest.dropWhile (fun r => isEndOfLoanFee (feeLower r)) = [] →
       cleanPass (t :: rest) =
         mkStint t t.season t.fee true :: cleanPass rest) ∧
    build_cleaned_sequence
      [⟨"A", none, "s1", some "Loan transfer"⟩,
       ⟨"Parent", none, "s1", some "End of loan"⟩,
       ⟨"A", none, "s2", some "permanent fee"⟩] =
      [⟨"A", none, "s2", some "permanent fee", false⟩] := by
  refine ⟨?_, ?_, by decide⟩
  · intro t2 rest2 hd
    constructor
    · intro hmp
      have hm : (t2.to_club == t.to_club &&
          !strContains (feeLower t2) "loan") = true := by
        simp [beq_iff_eq, hmp.1, hmp.2]
      exact cleanPass_loan_merge t rest t2 rest2 hy he hl hd hm
    · intro hnot
      apply cleanPass_loan_noMerge t rest hy he hl
      intro t2' rest2' hd'
      rw [hd] at hd'
      obtain ⟨rfl, rfl⟩ : t2 = t2' ∧ rest2 = rest2' := by
        injection hd' with h1 h2
        exact ⟨h1, h2⟩
      by_cases hc1 : t2.to_club = t.to_club
      · have hc2 : strContains (feeLower t2) "loan" = true := by
          cases hval : strContains (feeLower t2) "loan"
          · exact absurd ⟨hc1, hval⟩ hnot
          · rfl
        simp [hc1, hc2]
      · simp [beq_iff_eq, hc1]
  · intro hd
    apply cleanPass_loan_noMerge t rest hy he hl
    intro t2 rest2 hd'
    rw [hd] at hd'
    exact absurd hd' (by simp)

/-- Witness for C3: the concrete merge `[loan→A, eol→Parent, perm→A]`
applied through the step theorem. -/
theorem loan_scan_merge_step_witness :
    cleanPass
      [⟨"A", none, "s1", some "Loan transfer"⟩,
       ⟨"Parent", none, "s1", some "End of loan"⟩,
       ⟨"A", none, "s2", some "permanent fee"⟩] =
      mkStint ⟨"A", none, "s1", some "Loan transfer"⟩ "s2"
        (some "permanent fee") false :: cleanPass [] :=
  (((loan_scan_merge_step ⟨"A", none, "s1", some "Loan transfer"⟩
      [⟨"Parent", none, "s1", some "End of loan"⟩,
       ⟨"A", none, "s2", some "permanent fee"⟩]
      (by decide) (by decide) (by decide)).1
      ⟨"A", none, "s2", some "permanent fee"⟩ [] (by decide)).1
      ⟨rfl, by decide⟩)

/-! ### C4: the end-of-loan discard rule -/

/-- C4 counterexample: the end-of-loan discard decision inspects the
immediately following RAW record, not the next record surviving the
youth/reserve filter.  Here the raw next record is a youth-club loan, so
the code discards the `end of loan` record for "Parent FC" even though
the next SURVIVING record ("Other FC", fee "free") is not a loan — the
claim would require a "Parent FC" stint to be emitted, but the output
contains none. -/
theorem eol_discard_cex :
    is_youth_or_reserve_club "Club U19" = true ∧
    isEndOfLoanFee
      (feeLower ⟨"Parent FC", none, "20/21", some "End of loan"⟩) = true ∧
    strContains (feeLower ⟨"Other FC", none, "21/22", some "free"⟩) "loan"
      = false ∧
    build_cleaned_sequence
      [⟨"Parent FC", none, "20/21", some "End of loan"⟩,
       ⟨"Club U19", none, "20/21", some "Loan transfer"⟩,
       ⟨"Other FC", none, "21/22", some "free"⟩] =
      [⟨"Other FC", none, "21/22", some "free", false⟩] := by
  decide

/-- C4 (amended): when the main loop reaches a non-youth `end of loan`
record, it is discarded exactly when the immediately following RAW input
record (whether or not that record survives the youth/reserve filter)
has a fee containing "loan" but not "end of"; otherwise it is emitted as
a non-loan stint to the same club, and processing advances one record in
both cases. -/
theorem eol_discard_step (t : TransferRecord) (rest : List TransferRecord)
    (hy : is_youth_or_reserve_club t.to_club = false)
    (he : isEndOfLoanFee (feeLower t) = true) :
    cleanPass (t :: rest) =
      (if eolNextSkips rest then cleanPass rest
       else mkStint t t.season t.fee false :: cleanPass rest) := by
  unfold cleanPass
  simp only [List.length_cons, cleanFuel, hy, he]
  by_cases hs : eolNextSkips rest <;> simp [hs]

/-- Witness for C4 (amended): a concrete end-of-loan record followed by a
non-loan record is emitted. -/
theorem eol_discard_step_witness :
    cleanPass
      [⟨"P", none, "s1", some "End of loan"⟩,
       ⟨"B", none, "s2", some "free"⟩] =
      (if eolNextSkips [⟨"B", none, "s2", some "free"⟩]
       then cleanPass [⟨"B", none, "s2", some "free"⟩]
       else mkStint ⟨"P", none, "s1", some "End of loan"⟩ "s1"
         (some "End of loan") false ::
         cleanPass [⟨"B", none, "s2", some "free"⟩]) :=
  eol_discard_step ⟨"P", none, "s1", some "End of loan"⟩
    [⟨"B", none, "s2", some "free"⟩] (by decide) (by decide)

/-! ### C5: feeding the cleaner its own output -/

theorem mem_cleanFuel_nonYouth :
    ∀ (fuel : Nat) (ts : List TransferRecord) (s : CareerStint),
      s ∈ cleanFuel fuel ts → is_youth_or_reserve_club s.club = false := by
  intro fuel
  induction fuel with
  | zero => intro ts s hs; simp [cleanFuel] at hs
  | succ n ih =>
    intro ts s hs
    cases ts with
    | nil => simp [cleanFuel] at hs
    | cons t rest =>
      simp only [cleanFuel] at hs
      by_cases hy : is_youth_or_reserve_club t.to_club
      · rw [if_pos hy] at hs
        exact ih rest s hs
      · rw [if_neg hy] at hs
        by_cases he : isEndOfLoanFee (feeLower t)
        · rw [if_pos he] at hs
          by_cases hk : eolNextSkips rest
          · rw [if_pos hk] at hs
            exact ih rest s hs
          · rw [if_neg hk] at hs
            rcases List.mem_cons.mp hs with hs | hs
            · subst hs; simpa [mkStint] using hy
            · exact ih rest s hs
        · rw [if_neg he] at hs
          by_cases hl : isLoanFee (feeLower t)
          · rw [if_pos hl] at hs
            cases hd :
                rest.dropWhile (fun r => isEndOfLoanFee (feeLower r)) with
            | nil =>
              rw [hd] at hs
              rcases List.mem_cons.mp hs with hs | hs
              · subst hs; simpa [mkStint] using hy
              · exact ih rest s hs
            | cons t2 rest2 =>
              rw [hd] at hs
              dsimp only at hs
              by_cases hm : (t2.to_club == t.to_club &&
                  !strContains (feeLower t2) "loan")
              · rw [if_pos hm] at hs
                rcases List.mem_cons.mp hs with hs | hs
                · subst hs; simpa [mkStint] using hy
                · exact ih rest2 s hs
              · rw [if_neg hm] at hs
                rcases List.mem_cons.mp hs with hs | hs
                · subst hs; simpa [mkStint] using hy
                · exact ih rest s hs
          · rw [if_neg hl] at hs
            rcases List.mem_cons.mp hs with hs | hs
            · subst hs; simpa [mkStint] using hy
            · exact ih rest s hs

theorem mem_dedupFrom (l : List CareerStint) :
    ∀ (prev s : CareerStint), s ∈ dedupFrom prev l → s ∈ l := by
  induction l with
  | nil => intro prev s hs; simp [dedupFrom] at hs
  | cons c rest ih =>
    intro prev s hs
    by_cases h : c.club == prev.club
    · rw [show dedupFrom prev (c :: rest) = dedupFrom c rest from by
        simp [dedupFrom, h]] at hs
      exact List.mem_cons_of_mem c (ih c s hs)
    · rw [show dedupFrom prev (c :: rest) = c :: dedupFrom c rest from by
        simp [dedupFrom, h]] at hs
      rcases List.mem_cons.mp hs with hs | hs
      · exact List.mem_cons.mpr (Or.inl hs)
      · exact List.mem_cons_of_mem c (ih c s hs)

theorem mem_build_nonYouth (ts : List TransferRecord) (s : CareerStint)
    (hs : s ∈ build_cleaned_sequence ts) :
    is_youth_or_reserve_club s.club = false := by
  have hmem : s ∈ cleanPass ts := by
    unfold build_cleaned_sequence at hs
    cases hc : cleanPass ts with
    | nil => rw [hc] at hs; simp at hs
    | cons c rest =>
      rw [hc] at hs
      dsimp only at hs
      rcases List.mem_cons.mp hs with hs | hs
      · exact List.mem_cons.mpr (Or.inl hs)
      · exact List.mem_cons_of_mem c (mem_dedupFrom rest c s hs)
  exact mem_cleanFuel_nonYouth ts.length ts s hmem

theorem cleanFuel_plain :
    ∀ (fuel : Nat) (l : List TransferRecord), l.length ≤ fuel →
      (∀ t ∈ l, is_youth_or_reserve_club t.to_club = false ∧
        isEndOfLoanFee (feeLower t) = false ∧
        isLoanFee (feeLower t) = false) →
      cleanFuel fuel l = l.map (fun t => mkStint t t.season t.fee false) := by
  intro fuel
  induction fuel with
  | zero =>
    intro l hlen _
    have hl : l = [] := List.length_eq_zero.mp (Nat.le_zero.mp hlen)
    subst hl; rfl
  | succ n ih =>
    intro l hlen hall
    cases l with
    | nil => rfl
    | cons t rest =>
      obtain ⟨hy, he, hl⟩ := hall t (List.mem_cons_self t rest)
      have hrest : rest.length ≤ n := by
        simp only [List.length_cons] at hlen; omega
      simp only [cleanFuel, hy, he, hl, Bool.false_eq_true, if_false]
      rw [ih rest hrest (fun x hx => hall x (List.mem_cons_of_mem t hx))]
      rfl

theorem dedupFrom_eq_self (l : List CareerStint) :
    ∀ prev, List.Chain' (fun a b => a.club ≠ b.club) (prev :: l) →
      dedupFrom prev l = l := by
  induction l with
  | nil => intro prev _; rfl
  | cons c rest ih =>
    intro prev hch
    have h1 : prev.club ≠ c.club := (List.chain'_cons.mp hch).1
    have h2 : List.Chain' (fun a b => a.club ≠ b.club) (c :: rest) :=
      (List.chain'_cons.mp hch).2
    have hb : (c.club == prev.club) = false := by
      simp only [beq_eq_false_iff_ne, ne_eq]
      exact fun hcc => h1 hcc.symm
    rw [show dedupFrom prev (c :: rest) = c :: dedupFrom c rest from by
      simp [dedupFrom, hb]]
    rw [ih c h2]

theorem build_eq_of_chain (x : List TransferRecord) (m : List CareerStint)
    (hcp2 : cleanPass x = m)
    (h : List.Chain' (fun a b => a.club ≠ b.club) m) :
    build_cleaned_sequence x = m := by
  unfold build_cleaned_sequence
  rw [hcp2]
  cases m with
  | nil => rfl
  | cons c mr =>
    show c :: dedupFrom c mr = c :: mr
    rw [dedupFrom_eq_self mr c h]

/-- C5 counterexample: the cleaner is NOT a fixed point on its own output
under the claimed re-presentation.  A single loan record produces a loan
stint; re-presenting it as a one-record transfer with a non-loan fee
descriptor and cleaning again produces a NON-loan stint with the
replacement fee, so the output is not returned unchanged. -/
theorem cleaner_reinject_cex :
    build_cleaned_sequence
      ((build_cleaned_sequence [⟨"A", none, "s1", some "Loan transfer"⟩]).map
        (reinject "")) ≠
      build_cleaned_sequence [⟨"A", none, "s1", some "Loan transfer"⟩] := by
  decide

/-- C5 (amended): feeding the cleaner its own output — each stint
re-presented as a one-record transfer to that stint's club with any fee
descriptor that classifies as neither loan nor end-of-loan — returns the
same stint list up to per-stint normalization: clubs, logos and seasons
are unchanged in order, while each stint's fee becomes the reinjected
descriptor and its loan flag becomes false.  (In particular the cleaned
club sequence is a fixed point; the full records are not, as the
counterexample shows.) -/
theorem cleaner_reinject_normalizes (ts : List TransferRecord) (d : String)
    (hl : isLoanFee (strLower d) = false)
    (he : isEndOfLoanFee (strLower d) = false) :
    build_cleaned_sequence ((build_cleaned_sequence ts).map (reinject d)) =
      (build_cleaned_sequence ts).map
        (fun s => (⟨s.club, s.logo, s.season, some d, false⟩ :
          CareerStint)) := by
  have hall : ∀ r ∈ (build_cleaned_sequence ts).map (reinject d),
      is_youth_or_reserve_club r.to_club = false ∧
      isEndOfLoanFee (feeLower r) = false ∧
      isLoanFee (feeLower r) = false := by
    intro r hr
    obtain ⟨s, hsmem, rfl⟩ := List.mem_map.mp hr
    exact ⟨mem_build_nonYouth ts s hsmem, he, hl⟩
  have hcp : cleanPass ((build_cleaned_sequence ts).map (reinject d)) =
      ((build_cleaned_sequence ts).map (reinject d)).map
        (fun t => mkStint t t.season t.fee false) := by
    unfold cleanPass
    exact cleanFuel_plain _ _ le_rfl hall
  have hcp2 : cleanPass ((build_cleaned_sequence ts).map (reinject d)) =
      (build_cleaned_sequence ts).map
        (fun s => (⟨s.club, s.logo, s.season, some d, false⟩ :
          CareerStint)) := by
    rw [hcp, List.map_map]
    rfl
  have hchain2 : List.Chain' (fun a b => a.club ≠ b.club)
      ((build_cleaned_sequence ts).map
        (fun s => (⟨s.club, s.logo, s.season, some d, false⟩ :
          CareerStint))) :=
    (List.chain'_map _).mpr (build_cleaned_chain ts)
  exact build_eq_of_chain _ _ hcp2 hchain2

/-- Witness for C5 (amended) at the counterexample's input and the empty
fee descriptor. -/
theorem cleaner_reinject_normalizes_witness :
    build_cleaned_sequence
      ((build_cleaned_sequence [⟨"A", none, "s1", some "Loan transfer"⟩]).map
        (reinject "")) =
      (build_cleaned_sequence [⟨"A", none, "s1", some "Loan transfer"⟩]).map
        (fun s => (⟨s.club, s.logo, s.season, some "", false⟩ :
          CareerStint)) :=
  cleaner_reinject_normalizes [⟨"A", none, "s1", some "Loan transfer"⟩] ""
    (by decide) (by decide)
